import Mathlib

/-!
Verification of the loopback pipeline in src/main.rs.

The program wires two capture devices to one output device through two
bounded SPSC ring buffers (ringbuf::HeapRb<f32> of capacity 10240,
created in main at lines 73-74).  The capture callback produced by
create_input_processing_fn (lines 15-31) pushes each delivered block
with Producer::push_slice, which appends as many samples as fit and
returns the number appended; when that number differs from the block
length the callback sets output_fell_behind and prints one diagnostic.
The playback closure output_data_fn (lines 76-98) first sets
input_fell_behind when either consumer holds fewer samples than the
requested block, then zips the two infinite iterators
pop_iter().map(Some).chain(repeat(None)) with the output slice and
writes mic.unwrap_or(0.0) + capture.unwrap_or(0.0) into every slot,
finally printing one diagnostic when the flag was set.

Samples are embedded as rationals (exact stand-in for f32 arithmetic in
the ranges exercised here; the code performs a plain + with no explicit
saturation).  A channel is its fixed capacity plus its queue contents,
oldest sample first; this is the sequential semantics of the
single-producer single-consumer HeapRb.

One behaviour of the Rust iterator chain is modelled with care: the
generic Iterator::zip pulls from its left iterator first and only then
from the right one, so after the output slice is exhausted the loop
performs one further pull on each chained pop iterator before stopping.
That extra pull pops (and discards) one sample from each channel
whenever the channel still holds samples after the block was served.
mixLoop below reproduces exactly this order of effects.
-/

/-- A bounded sample channel: the sequential contents of one
ringbuf::HeapRb<f32>.  cap is the fixed capacity chosen at
construction; buf lists the queued samples, oldest first. -/
structure Channel where
  cap : Nat
  buf : List ℚ
deriving DecidableEq

/-- Producer::push of a single sample: appended when the buffer has
room, otherwise rejected (the Bool is true when the sample is dropped
because the channel is full). -/
def Channel.push (ch : Channel) (x : ℚ) : Channel × Bool :=
  if ch.buf.length < ch.cap then (⟨ch.cap, ch.buf ++ [x]⟩, false) else (ch, true)

/-- Consumer::pop: removes and returns the oldest sample, or reports
empty without changing anything. -/
def Channel.pop (ch : Channel) : Option ℚ × Channel :=
  match ch with
  | ⟨c, []⟩ => (none, ⟨c, []⟩)
  | ⟨c, x :: rest⟩ => (some x, ⟨c, rest⟩)

/-- Remaining room in the channel. -/
def Channel.free (ch : Channel) : Nat := ch.cap - ch.buf.length

/-- Producer::push_slice: appends as many samples from the block as
fit and returns the count appended. -/
def Channel.push_slice (ch : Channel) (data : List ℚ) : Channel × Nat :=
  (⟨ch.cap, ch.buf ++ data.take ch.free⟩, min data.length ch.free)

/-- HeapRb::new(c).split(): a freshly constructed, empty channel of
capacity c. -/
def mkHeapRb (c : Nat) : Channel := ⟨c, []⟩

/-- The two ring buffers created in main (lines 73-74).  Note that no
silent samples are written into either of them before the streams are
started: the buffers begin empty. -/
def consumer_mic : Channel := mkHeapRb 10240

/-- Second ring buffer of main (line 74), also created empty. -/
def consumer_capture : Channel := mkHeapRb 10240

/-- Result of one capture-callback invocation. -/
structure CaptureResult where
  chAfter : Channel
  fellBehind : Bool
  diagCount : Nat
deriving DecidableEq

/-- The closure returned by create_input_processing_fn: push the whole
block with push_slice, set output_fell_behind when not every sample
was appended, and print one diagnostic when the flag is set. -/
def input_data_fn (ch : Channel) (data : List ℚ) : CaptureResult :=
  { chAfter := (ch.push_slice data).1
    fellBehind := (ch.push_slice data).2 != data.length
    diagCount := if (ch.push_slice data).2 != data.length then 1 else 0 }

/-- The zipped pop loop of output_data_fn.  Each step of the Rust
iterator first pulls once from each chained pop iterator (popping the
channel when it is nonempty, yielding None otherwise) and only then
pulls the next output slot; when the output slice is exhausted the
loop stops, but the two pulls of that final step have already
happened.  Returns the written block and both channel states. -/
def mixLoop (mic cpt : Channel) (data : List ℚ) : List ℚ × Channel × Channel :=
  match data with
  | [] => ([], (mic.pop).2, (cpt.pop).2)
  | _ :: rest =>
    let r := mixLoop (mic.pop).2 (cpt.pop).2 rest
    (((mic.pop).1.getD 0 + (cpt.pop).1.getD 0) :: r.1, r.2)

/-- Result of one playback-callback invocation. -/
structure MixResult where
  out : List ℚ
  micAfter : Channel
  capAfter : Channel
  fellBehind : Bool
  diagCount : Nat
deriving DecidableEq

/-- The playback closure output_data_fn: input_fell_behind is decided
up front from the two occupancies against the requested block length,
every output slot is overwritten with the sum of the popped samples
(silence for an empty pop), and one diagnostic is printed when the
flag was set.  The incoming data block only contributes its length
(its stale contents are never read). -/
def output_data_fn (mic cpt : Channel) (data : List ℚ) : MixResult :=
  { out := (mixLoop mic cpt data).1
    micAfter := (mixLoop mic cpt data).2.1
    capAfter := (mixLoop mic cpt data).2.2
    fellBehind := decide (mic.buf.length < data.length)
      || decide (cpt.buf.length < data.length)
    diagCount := if decide (mic.buf.length < data.length)
      || decide (cpt.buf.length < data.length) then 1 else 0 }

/-- Pushing a list of samples one by one (the per-sample view of
push_slice); returns the final channel and how many pushes reported
full. -/
def pushAll (ch : Channel) (xs : List ℚ) : Channel × Nat :=
  match xs with
  | [] => (ch, 0)
  | x :: rest =>
    let r := pushAll (ch.push x).1 rest
    (r.1, r.2 + if (ch.push x).2 then 1 else 0)

/-- Popping n times in sequence; returns the n results in order and
the final channel. -/
def popN (ch : Channel) (n : Nat) : List (Option ℚ) × Channel :=
  match n with
  | 0 => ([], ch)
  | Nat.succ m =>
    let r := popN (ch.pop).2 m
    ((ch.pop).1 :: r.1, r.2)

/-- pop returns the head of the queue (or none) and keeps the tail. -/
theorem pop_eq (ch : Channel) :
    ch.pop = (ch.buf[0]?, ⟨ch.cap, ch.buf.drop 1⟩) := by
  cases ch with
  | mk c b => cases b <;> simp [Channel.pop]

/-- Per-sample pushing appends exactly the samples that fit and counts
one full report per sample that does not. -/
theorem pushAll_spec (xs : List ℚ) : ∀ (C : Nat) (b : List ℚ), b.length ≤ C →
    pushAll ⟨C, b⟩ xs
      = (⟨C, b ++ xs.take (C - b.length)⟩, xs.length - (C - b.length)) := by
  induction xs with
  | nil =>
    intro C b h
    simp [pushAll]
  | cons x rest ih =>
    intro C b h
    by_cases hb : b.length < C
    · have h1 : (b ++ [x]).length ≤ C := by simp; omega
      obtain ⟨d, hd⟩ : ∃ d, C - b.length = d + 1 := ⟨C - b.length - 1, by omega⟩
      have h2 : C - (b ++ [x]).length = d := by simp; omega
      simp only [pushAll, Channel.push]
      rw [if_pos hb, ih C (b ++ [x]) h1]
      simp [hd, h2, List.take_succ_cons]
      omega
    · have h0 : C - b.length = 0 := by omega
      simp only [pushAll, Channel.push]
      rw [if_neg hb, ih C b h]
      simp [h0]

/-- Popping n times reads the first n positions of the queue (none
past the end) and drops them. -/
theorem popN_spec (n : Nat) : ∀ (C : Nat) (b : List ℚ),
    popN ⟨C, b⟩ n = ((List.range n).map (fun i => b[i]?), ⟨C, b.drop n⟩) := by
  induction n with
  | zero =>
    intro C b
    simp [popN]
  | succ m ih =>
    intro C b
    cases b with
    | nil =>
      simp [popN, Channel.pop, ih, List.range_succ_eq_map, List.map_map, Function.comp_def,
        Nat.succ_eq_add_one, List.map_const']
    | cons x rest =>
      simp [popN, Channel.pop, ih, List.range_succ_eq_map, List.map_map, Function.comp_def,
        Nat.succ_eq_add_one]

/-- Reading every index of a list in order gives back the list. -/
theorem range_map_getElem (xs : List ℚ) :
    (List.range xs.length).map (fun i => xs[i]?) = xs.map some := by
  induction xs with
  | nil => simp
  | cons x rest ih =>
    simp [List.length_cons, List.range_succ_eq_map, List.map_map, Function.comp_def,
      Nat.succ_eq_add_one, ih]

/-- Closed form of the zipped pop loop: slot i of the written block is
the sum of position i of each queue (silence past the end), and each
queue loses data.length + 1 positions, the final pull of the Rust zip
having popped one sample beyond the block from every nonempty queue. -/
theorem mixLoop_spec (data : List ℚ) : ∀ (mic cpt : Channel),
    mixLoop mic cpt data
      = ((List.range data.length).map
           (fun i => (mic.buf[i]?).getD 0 + (cpt.buf[i]?).getD 0),
         ⟨mic.cap, mic.buf.drop (data.length + 1)⟩,
         ⟨cpt.cap, cpt.buf.drop (data.length + 1)⟩) := by
  induction data with
  | nil =>
    intro mic cpt
    simp [mixLoop, pop_eq]
  | cons d rest ih =>
    intro mic cpt
    simp only [mixLoop, pop_eq, ih]
    simp [List.range_succ_eq_map, List.map_map, Function.comp_def, Nat.succ_eq_add_one,
      List.getElem?_drop, List.drop_drop, List.length_cons]

/-- Claim C2: a push sequence within capacity is reported fully
accepted, the subsequent pops return exactly the pushed samples in
order, and the next pop after they are consumed reports empty. -/
theorem channel_fifo (C : Nat) (xs : List ℚ) (h : xs.length ≤ C) :
    (pushAll (mkHeapRb C) xs).2 = 0
    ∧ (popN (pushAll (mkHeapRb C) xs).1 xs.length).1 = xs.map some
    ∧ ((popN (pushAll (mkHeapRb C) xs).1 xs.length).2.pop).1 = none := by
  have hp : pushAll (mkHeapRb C) xs = (⟨C, xs⟩, 0) := by
    rw [show mkHeapRb C = ⟨C, []⟩ from rfl, pushAll_spec xs C [] (by simp)]
    simp [List.take_of_length_le (by omega : xs.length ≤ C - 0)]
    omega
  rw [hp, popN_spec]
  exact ⟨rfl, range_map_getElem xs, by simp [pop_eq, List.drop_length]⟩

/-- Specialisation of channel_fifo to concrete data: capacity 8,
samples [1,2,3,4,5]. -/
theorem channel_fifo_witness :
    ([(1 : ℚ), 2, 3, 4, 5].length ≤ 8)
    ∧ ((pushAll (mkHeapRb 8) [(1 : ℚ), 2, 3, 4, 5]).2 = 0
      ∧ (popN (pushAll (mkHeapRb 8) [(1 : ℚ), 2, 3, 4, 5]).1
          [(1 : ℚ), 2, 3, 4, 5].length).1 = [(1 : ℚ), 2, 3, 4, 5].map some
      ∧ (((popN (pushAll (mkHeapRb 8) [(1 : ℚ), 2, 3, 4, 5]).1
          [(1 : ℚ), 2, 3, 4, 5].length).2).pop).1 = none) :=
  ⟨by decide, channel_fifo 8 [1, 2, 3, 4, 5] (by decide)⟩

/-- Claim C3: pushing k samples beyond the capacity reports exactly k
drops, keeps exactly the first C samples in order, and the per-sample
count agrees with the count that push_slice reports. -/
theorem channel_overflow_drops (C k : Nat) (xs : List ℚ) (h : xs.length = C + k) :
    (pushAll (mkHeapRb C) xs).2 = k
    ∧ (pushAll (mkHeapRb C) xs).1.buf = xs.take C
    ∧ (popN (pushAll (mkHeapRb C) xs).1 C).1 = (xs.take C).map some
    ∧ ((mkHeapRb C).push_slice xs).1 = (pushAll (mkHeapRb C) xs).1
    ∧ xs.length - ((mkHeapRb C).push_slice xs).2 = k := by
  have hp : pushAll (mkHeapRb C) xs = (⟨C, xs.take C⟩, k) := by
    rw [show mkHeapRb C = ⟨C, []⟩ from rfl, pushAll_spec xs C [] (by simp)]
    simp
    omega
  have hl : (xs.take C).length = C := by
    rw [List.length_take]
    omega
  refine ⟨by rw [hp], by rw [hp], ?_, ?_, ?_⟩
  · rw [hp]
    have := range_map_getElem (xs.take C)
    rw [hl] at this
    rw [popN_spec, this]
  · rw [hp]
    simp [Channel.push_slice, mkHeapRb, Channel.free]
  · simp [Channel.push_slice, mkHeapRb, Channel.free]
    omega

/-- Specialisation of channel_overflow_drops: capacity 4, six samples,
two drops. -/
theorem channel_overflow_drops_witness :
    ([(1 : ℚ), 2, 3, 4, 5, 6].length = 4 + 2)
    ∧ ((pushAll (mkHeapRb 4) [(1 : ℚ), 2, 3, 4, 5, 6]).2 = 2
      ∧ (pushAll (mkHeapRb 4) [(1 : ℚ), 2, 3, 4, 5, 6]).1.buf
          = [(1 : ℚ), 2, 3, 4, 5, 6].take 4
      ∧ (popN (pushAll (mkHeapRb 4) [(1 : ℚ), 2, 3, 4, 5, 6]).1 4).1
          = ([(1 : ℚ), 2, 3, 4, 5, 6].take 4).map some
      ∧ ((mkHeapRb 4).push_slice [(1 : ℚ), 2, 3, 4, 5, 6]).1
          = (pushAll (mkHeapRb 4) [(1 : ℚ), 2, 3, 4, 5, 6]).1
      ∧ [(1 : ℚ), 2, 3, 4, 5, 6].length
          - ((mkHeapRb 4).push_slice [(1 : ℚ), 2, 3, 4, 5, 6]).2 = 2) :=
  ⟨by decide, channel_overflow_drops 4 2 [1, 2, 3, 4, 5, 6] (by decide)⟩

/-- Claim C4: when one source has no sample at a slot and the other
does, the written slot is exactly the available sample, silence being
the additive identity of the mix. -/
theorem silence_substitution (mic cpt : Channel) (data : List ℚ) (i : Nat) (a : ℚ)
    (hi : i < data.length) (hA : mic.buf[i]? = some a) (hB : cpt.buf[i]? = none) :
    (output_data_fn mic cpt data).out[i]? = some a := by
  simp [output_data_fn, mixLoop_spec, List.getElem?_map, List.getElem?_range hi, hA, hB]

/-- Specialisation of silence_substitution: mic holds 3, the second
channel is empty, the written slot is exactly 3. -/
theorem silence_substitution_witness :
    (0 < [(0 : ℚ)].length
      ∧ (⟨4, [(3 : ℚ)]⟩ : Channel).buf[0]? = some 3
      ∧ (⟨4, ([] : List ℚ)⟩ : Channel).buf[0]? = none)
    ∧ (output_data_fn ⟨4, [(3 : ℚ)]⟩ ⟨4, []⟩ [0]).out[0]? = some 3 :=
  ⟨⟨by decide, by decide, by decide⟩,
    silence_substitution ⟨4, [3]⟩ ⟨4, []⟩ [0] 0 3 (by decide) (by decide) (by decide)⟩

/-- Claim C6: the playback flag is set exactly when some channel runs
out within the block, it is one boolean for the whole invocation, and
exactly one diagnostic is printed when and only when it is set. -/
theorem underrun_flag_iff (mic cpt : Channel) (data : List ℚ) :
    ((output_data_fn mic cpt data).fellBehind = true
      ↔ ∃ i, i < data.length ∧ (mic.buf[i]? = none ∨ cpt.buf[i]? = none))
    ∧ (output_data_fn mic cpt data).diagCount
        = (if (output_data_fn mic cpt data).fellBehind then 1 else 0)
    ∧ (output_data_fn mic cpt data).diagCount ≤ 1 := by
  refine ⟨?_, rfl, ?_⟩
  · simp only [output_data_fn, Bool.or_eq_true, decide_eq_true_eq,
      List.getElem?_eq_none_iff]
    constructor
    · rintro (hm | hc)
      · exact ⟨mic.buf.length, hm, Or.inl le_rfl⟩
      · exact ⟨cpt.buf.length, hc, Or.inr le_rfl⟩
    · rintro ⟨i, hi, hm | hc⟩
      · exact Or.inl (by omega)
      · exact Or.inr (by omega)
  · simp only [output_data_fn]
    split <;> simp

/-- Claim C7: the capture callback appends exactly the samples that
fit, flags the invocation precisely when the block did not fit
entirely, and prints at most one diagnostic, exactly when flagged. -/
theorem capture_overrun_flag (ch : Channel) (data : List ℚ) :
    (input_data_fn ch data).chAfter.buf = ch.buf ++ data.take ch.free
    ∧ ((input_data_fn ch data).fellBehind = true ↔ ch.free < data.length)
    ∧ (input_data_fn ch data).diagCount
        = (if (input_data_fn ch data).fellBehind then 1 else 0)
    ∧ (input_data_fn ch data).diagCount ≤ 1 := by
  refine ⟨rfl, ?_, rfl, ?_⟩
  · simp [input_data_fn, Channel.push_slice, bne_iff_ne]
  · simp only [input_data_fn]
    split <;> simp

/-- Claim C9: popping an empty channel reports empty and leaves the
channel as it was, and the state a playback invocation leaves in the
second channel does not depend on the first channel at all (popping
one channel never mutates another). -/
theorem pop_empty_frame (ch : Channel) (h : ch.buf = []) (mic1 mic2 cpt : Channel)
    (data : List ℚ) :
    ch.pop = (none, ch)
    ∧ (output_data_fn mic1 cpt data).capAfter = (output_data_fn mic2 cpt data).capAfter := by
  constructor
  · cases ch with
    | mk c b =>
      simp only at h
      subst h
      rfl
  · simp [output_data_fn, mixLoop_spec]

/-- Specialisation of pop_empty_frame at concrete channels. -/
theorem pop_empty_frame_witness :
    (⟨8, ([] : List ℚ)⟩ : Channel).buf = []
    ∧ ((⟨8, ([] : List ℚ)⟩ : Channel).pop = (none, ⟨8, []⟩)
      ∧ (output_data_fn ⟨4, []⟩ ⟨4, [(1 : ℚ)]⟩ [0]).capAfter
          = (output_data_fn ⟨4, [(2 : ℚ)]⟩ ⟨4, [(1 : ℚ)]⟩ [0]).capAfter) :=
  ⟨rfl, pop_empty_frame ⟨8, []⟩ rfl ⟨4, []⟩ ⟨4, [2]⟩ ⟨4, [1]⟩ [0]⟩

/-- Claim C10: the written block has exactly the requested length and
is fully determined by the two queues (the stale contents of the
output block are never read); with both channels empty the whole
block is silence. -/
theorem mixer_overwrites_block (mic cpt : Channel) (data : List ℚ) (c1 c2 : Nat) :
    (output_data_fn mic cpt data).out.length = data.length
    ∧ (output_data_fn mic cpt data).out
        = (List.range data.length).map
            (fun i => (mic.buf[i]?).getD 0 + (cpt.buf[i]?).getD 0)
    ∧ (output_data_fn (mkHeapRb c1) (mkHeapRb c2) data).out
        = List.replicate data.length 0 := by
  refine ⟨?_, by simp [output_data_fn, mixLoop_spec], ?_⟩
  · simp [output_data_fn, mixLoop_spec]
  · simp [output_data_fn, mixLoop_spec, mkHeapRb, List.map_const', List.length_range]

/-- Source sequence of the first capture device in the run below. -/
def runA : List ℚ := [1, 2, 3]

/-- Source sequence of the second capture device in the run below. -/
def runB : List ℚ := [5, 6, 7]

/-- Run step 1: the first device delivers its first two samples. -/
def c1MicPush1 : CaptureResult := input_data_fn (mkHeapRb 10240) [1, 2]

/-- Run step 2: the second device delivers its first two samples. -/
def c1CapPush1 : CaptureResult := input_data_fn (mkHeapRb 10240) [5, 6]

/-- Run step 3: the playback device requests a one-slot block. -/
def c1Mix1 : MixResult := output_data_fn c1MicPush1.chAfter c1CapPush1.chAfter [0]

/-- Run step 4: the first device delivers its third sample. -/
def c1MicPush2 : CaptureResult := input_data_fn c1Mix1.micAfter [3]

/-- Run step 5: the second device delivers its third sample. -/
def c1CapPush2 : CaptureResult := input_data_fn c1Mix1.capAfter [7]

/-- Run step 6: the playback device requests the next one-slot block. -/
def c1Mix2 : MixResult := output_data_fn c1MicPush2.chAfter c1CapPush2.chAfter [0]

/-- Claim C1 fails on the code: in the run above neither an overrun
nor an underrun is ever flagged and the sequences have equal length,
yet output slot 1 carries 10 = runA[2] + runB[2] instead of
runA[1] + runB[1] = 8: serving the one-slot block pulled the sample
iterators one extra time, silently discarding runA[1] and runB[1]
from the queues. -/
theorem mixer_extra_pop_drops_samples :
    c1MicPush1.fellBehind = false ∧ c1CapPush1.fellBehind = false
    ∧ c1MicPush2.fellBehind = false ∧ c1CapPush2.fellBehind = false
    ∧ c1Mix1.fellBehind = false ∧ c1Mix2.fellBehind = false
    ∧ runA.length = runB.length
    ∧ c1Mix1.out = [6] ∧ c1Mix2.out = [10]
    ∧ (runA[1]?).getD 0 + (runB[1]?).getD 0 = 8
    ∧ (10 : ℚ) ≠ 8 := by
  refine ⟨by decide, by decide, by decide, by decide, by decide, by decide, by decide,
    ?_, ?_, by norm_num [runA, runB], by norm_num⟩
  · norm_num [c1Mix1, c1MicPush1, c1CapPush1, input_data_fn, output_data_fn, mixLoop,
      Channel.pop, Channel.push_slice, Channel.free, mkHeapRb]
  · norm_num [c1Mix2, c1MicPush2, c1CapPush2, c1Mix1, c1MicPush1, c1CapPush1,
      input_data_fn, output_data_fn, mixLoop, Channel.pop, Channel.push_slice,
      Channel.free, mkHeapRb]

/-- Claim C5 fails on the code: main creates both ring buffers and
starts the streams without writing any silent samples (despite the
doc comment announcing a LATENCY_MS delay), so before any capture the
very first pop reports empty instead of returning silence. -/
theorem primer_never_runs :
    consumer_mic.buf = [] ∧ consumer_capture.buf = []
    ∧ (consumer_mic.pop).1 = none ∧ (consumer_capture.pop).1 = none := by decide

/-- Channel of source A in concrete scenario 3 after its only capture
block [1/10, 2/10]; capacity 10, no priming precedes it in the code. -/
def c8MicPush : CaptureResult := input_data_fn (mkHeapRb 10) [1/10, 2/10]

/-- Scenario 3 playback invocation: a two-slot block, source B having
pushed nothing. -/
def c8Mix : MixResult := output_data_fn c8MicPush.chAfter (mkHeapRb 10) [0, 0]

/-- Claim C8 as stated is false: in the scenario the underrun flag IS
raised, because the second channel holds fewer samples than the
block. -/
theorem c8_underrun_flag_raised : c8Mix.fellBehind = true := by decide

/-- Claim C8 amended: the two written slots are [1/10, 2/10] with the
silent channel the additive identity, but the invocation is flagged
and prints one diagnostic, the second channel being empty (and no
primer ever ran, see primer analysis). -/
theorem c8_amended_run :
    c8MicPush.fellBehind = false
    ∧ c8Mix.out = [1/10, 2/10]
    ∧ c8Mix.fellBehind = true
    ∧ c8Mix.diagCount = 1 := by
  refine ⟨by decide, ?_, by decide, by decide⟩
  norm_num [c8Mix, c8MicPush, input_data_fn, output_data_fn, mixLoop,
    Channel.pop, Channel.push_slice, Channel.free, mkHeapRb]
